import Mathlib

/-!
Verification of the rgb-std containers core: the canonical commitment encoder
producing `TransferId` (src/containers/transfer.rs) and the indexed-consignment
adapter with its bundle index (src/containers/indexed.rs).

Opaque cryptographic identifiers (operation ids, bundle ids, witness ids,
disclosure hashes, serialized field contents) are modelled as natural numbers.
The SHA-256 commit engine is modelled as the exact sequence of items fed to it,
together with the domain-separation tag: two transfers get the same identifier
precisely when they feed the engine the same tagged item sequence, which is the
collision-free idealization of the hash.
-/

namespace RgbStd

set_option maxRecDepth 8192

/-! ## Canonically ordered sets (model of `BTreeSet` construction)

Rust's `BTreeSet`/`BTreeMap` iterate in sorted order and hold no duplicates.
`canon` models collecting an iterator into such a set: the result is the
sorted, duplicate-free list of the input's members. -/

/-- Insert a value into a sorted duplicate-free list, keeping it sorted and
duplicate-free (the effect of `BTreeSet::insert` on the iteration order). -/
def insertSorted (x : Nat) : List Nat → List Nat
  | [] => [x]
  | y :: ys =>
    if x < y then x :: y :: ys
    else if x = y then y :: ys
    else y :: insertSorted x ys

/-- Collect a list into its canonical ordered-set form: sorted, duplicate-free,
containing exactly the members of the input (the iteration order of a
`BTreeSet` built with `from_iter`). -/
def canon (l : List Nat) : List Nat := l.foldr insertSorted []

/-- Encode a key-value pair as a single natural number (injective pairing),
used to treat map entries uniformly with set elements. -/
def pairNat (kv : Nat × Nat) : Nat := Nat.pair kv.1 kv.2

/-! ## Data model

Shallow embedding of the consignment aggregate from the spec's §3 data model;
the `Consignment` struct itself lives in `containers/consignment.rs`, which is
not among the given sources, so its fields are modelled from the spec: schema,
genesis, anchored bundles, extensions, terminals, attachments, supplements,
interface implementations, asset tags, signatures and a version tag. -/

/-- Genesis operation: identified by a content-addressed id; the contract id is
derived from it and a disclosure hash digests its non-confidential parts. -/
structure Genesis where
  id : Nat
  disclose_hash : Nat
deriving DecidableEq

/-- Contract extension operation, with its content-addressed id and its
disclosure hash. -/
structure Extension where
  id : Nat
  disclose_hash : Nat
deriving DecidableEq

/-- Transition bundle: its bundle id, its disclosure hash, and the map of known
transitions keyed by operation id (transitions themselves opaque). -/
structure TransitionBundle where
  bundle_id : Nat
  disclose_hash : Nat
  known_transitions : List (Nat × Nat)
deriving DecidableEq

/-- Anchor binding a bundle to a blockchain witness; `witness_id` models
`anchor.witness_id_unchecked()`. -/
structure Anchor where
  witness_id : Nat
deriving DecidableEq

/-- An anchored bundle couples an anchor with a transition bundle. -/
structure AnchoredBundle where
  anchor : Anchor
  bundle : TransitionBundle
deriving DecidableEq

/-- AnchoredBundle::bundle_id returns the id of the contained bundle. -/
def AnchoredBundle.bundleId (ab : AnchoredBundle) : Nat := ab.bundle.bundle_id

/-- Terminal: the endpoint seals attached to one bundle id (seals in revealed
form, modelled as naturals). -/
structure Terminal where
  seals : List Nat
deriving DecidableEq

/-- Concealed seal. Modelled from the spec: `conceal` is a deterministic
one-way blinding of a seal; the concealed form is a distinct type, so a
concealed seal is never the revealed original. -/
structure SecretSeal where
  hash : Nat
deriving DecidableEq

/-- Conceal a revealed seal. Modelled from the spec: deterministic one-way
blinding function over a seal value (`commit_verify::Conceal`, outside the
given sources); one-wayness is not modelled, determinism is. -/
def conceal (s : Nat) : SecretSeal := ⟨s⟩

/-- The consignment aggregate (also the shape of a `Transfer`). Collection
fields are stored as lists of their members; the committed form canonicalizes
them (see `canon`), mirroring the ordered-set types of the source. `ifaces`
holds the interface-implementation ids of the iface map's values; `attachments`
holds the attachment ids (the keys of the attachment map). -/
structure Consignment where
  version : Nat
  transfer : Bool
  schema : Nat
  genesis : Genesis
  ifaces : List Nat
  bundles : List AnchoredBundle
  extensions : List Extension
  terminals : List (Nat × Terminal)
  attachments : List Nat
  supplements : List Nat
  asset_tags : List (Nat × Nat)
  signatures : List (Nat × Nat)
deriving DecidableEq

/-- A `Transfer` is a consignment-shaped container (`Consignment<true>` in the
source) distinguished by use and commitment tag. -/
abbrev Transfer := Consignment

/-- Contract id of a consignment. Modelled from the spec: the contract
identifier is derived from the genesis (`consignment.rs` is not among the
given sources). -/
def Consignment.contract_id (c : Consignment) : Nat := c.genesis.id

/-! ## Commitment encoder (transfer.rs) -/

/-- Declared size bound of a committed collection: tiny/small/large confined
sets built at commit time, or the bound already declared on the field's own
confined type. -/
inductive Bound where
  | tiny
  | small
  | large
  | declared
deriving DecidableEq

/-- One item fed to the commit engine: a strict-serialized scalar, an
order-independent set commitment, or an order-independent map commitment. -/
inductive Item where
  | serialized (v : Nat)
  | oset (b : Bound) (elems : List Nat)
  | omap (b : Bound) (entries : List Nat)
deriving DecidableEq

/-- The commit engine, modelled as the ordered list of items it has absorbed. -/
structure CommitEngine where
  items : List Item
deriving DecidableEq

/-- CommitEngine::commit_to_serialized. -/
def CommitEngine.commit_to_serialized (e : CommitEngine) (v : Nat) : CommitEngine :=
  ⟨e.items ++ [Item.serialized v]⟩

/-- CommitEngine::commit_to_set: absorbs a canonically ordered set together
with its declared bound. -/
def CommitEngine.commit_to_set (e : CommitEngine) (b : Bound) (elems : List Nat) : CommitEngine :=
  ⟨e.items ++ [Item.oset b elems]⟩

/-- CommitEngine::commit_to_map: absorbs a canonically ordered entry set
together with its declared bound. -/
def CommitEngine.commit_to_map (e : CommitEngine) (b : Bound) (entries : List Nat) : CommitEngine :=
  ⟨e.items ++ [Item.omap b entries]⟩

/-- Strict serialization of the transfer-kind boolean tag. -/
def boolNat (b : Bool) : Nat := if b then 1 else 0

/-- Flatten a terminal map into encoded (bundle id, concealed seal) pairs,
one per seal of each terminal. -/
def sealEntries : List (Nat × Terminal) → List Nat
  | [] => []
  | bt :: rest => bt.2.seals.map (fun s => Nat.pair bt.1 (conceal s).hash) ++ sealEntries rest

/-- Terminal disclosure. Modelled from the spec: the set of terminal entries,
each a (bundle id, concealed seal) pair (`Consignment::terminals_disclose` is
not among the given sources); pairs are encoded injectively via `Nat.pair`. -/
def Consignment.terminals_disclose (c : Consignment) : List Nat :=
  sealEntries c.terminals

/-- CommitEncode for Transfer (transfer.rs lines 75-101): feeds the engine the
version, the transfer tag, the contract id, the genesis disclosure hash, then
the eight canonically ordered collections, in the source's order. Set
construction (`TinyOrdSet::from_iter_unsafe` and friends collecting into a
`BTreeSet`) is modelled by `canon`; the bound check those constructors perform
is modelled separately by `try_from_iter` below. -/
def Consignment.commit_encode (c : Consignment) (e : CommitEngine) : CommitEngine :=
  let e := e.commit_to_serialized c.version
  let e := e.commit_to_serialized (boolNat c.transfer)
  let e := e.commit_to_serialized c.contract_id
  let e := e.commit_to_serialized c.genesis.disclose_hash
  let e := e.commit_to_set Bound.tiny (canon c.ifaces)
  let e := e.commit_to_set Bound.large (canon (c.bundles.map (fun ab => ab.bundle.disclose_hash)))
  let e := e.commit_to_set Bound.large (canon (c.extensions.map Extension.disclose_hash))
  let e := e.commit_to_set Bound.small (canon c.terminals_disclose)
  let e := e.commit_to_set Bound.small (canon c.attachments)
  let e := e.commit_to_set Bound.declared (canon c.supplements)
  let e := e.commit_to_map Bound.declared (canon (c.asset_tags.map pairNat))
  let e := e.commit_to_map Bound.declared (canon (c.signatures.map pairNat))
  e

/-- Domain-separation tag bound into every derived transfer id. -/
def commitmentTag : String := "urn:lnp-bp:rgb:transfer#2024-02-04"

/-- Transfer identifier: the finished, tagged commitment (the idealized
SHA-256 digest of the tag and the absorbed item sequence). -/
structure TransferId where
  tag : String
  trace : List Item
deriving DecidableEq

/-- Transfer::transfer_id (= CommitId::commit_id): run the commitment encoder
on a fresh tagged engine and finish it. -/
def Consignment.transfer_id (c : Transfer) : TransferId :=
  ⟨commitmentTag, (c.commit_encode ⟨[]⟩).items⟩

/-! ## Bound-checked confined-set construction (spec §4.2, §7)

The confined-set constructors live in the external `amplify::confinement`
crate, outside the given sources. Modelled from the spec: a committed
collection exceeding its declared size bound fails construction immediately
with a size-limit error and is never truncated or wrapped. -/

/-- Size-limit error of confined-collection construction. -/
inductive ConfinementError where
  | oversize (maxLen actual : Nat)
deriving DecidableEq

/-- Tiny collection bound (spec: at most `2 ^ 8` entries). -/
def tinyBound : Nat := 2 ^ 8

/-- Small collection bound (at most `2 ^ 16` entries). -/
def smallBound : Nat := 2 ^ 16

/-- Large collection bound (at most `2 ^ 32` entries). -/
def largeBound : Nat := 2 ^ 32

/-- Modelled from the spec: build the canonical ordered set from an iterator
and fail with a size-limit error when it exceeds the declared bound; on
success the set holds every member of the input (no truncation). -/
def try_from_iter (maxLen : Nat) (l : List Nat) : Except ConfinementError (List Nat) :=
  let s := canon l
  if s.length ≤ maxLen then Except.ok s else Except.error (ConfinementError.oversize maxLen s.length)

/-- Bound-checked refinement of `Consignment.commit_encode`, following the
spec's words: each commit-time confined set is constructed through the
size-checked constructor, so an oversized collection aborts the commitment
with a size-limit error. The three field-typed collections (supplements,
asset tags, signatures) are committed from the field's own already-confined
value, exactly as in the source, so no commit-time check applies to them. -/
def Consignment.commitEncodeChecked (c : Consignment) : Except ConfinementError (List Item) := do
  let ifaceSet ← try_from_iter tinyBound c.ifaces
  let bundleSet ← try_from_iter largeBound (c.bundles.map (fun ab => ab.bundle.disclose_hash))
  let extSet ← try_from_iter largeBound (c.extensions.map Extension.disclose_hash)
  let termSet ← try_from_iter smallBound c.terminals_disclose
  let attachSet ← try_from_iter smallBound c.attachments
  pure [Item.serialized c.version,
    Item.serialized (boolNat c.transfer),
    Item.serialized c.contract_id,
    Item.serialized c.genesis.disclose_hash,
    Item.oset Bound.tiny ifaceSet,
    Item.oset Bound.large bundleSet,
    Item.oset Bound.large extSet,
    Item.oset Bound.small termSet,
    Item.oset Bound.small attachSet,
    Item.oset Bound.declared (canon c.supplements),
    Item.omap Bound.declared (canon (c.asset_tags.map pairNat)),
    Item.omap Bound.declared (canon (c.signatures.map pairNat))]

/-! ## Textual identifier codec (spec §4.1, §6)

The Baid58 codec internals live in the external `baid58` crate ("used, not
designed here"); transfer.rs only wires the `transfer` prefix, 32-byte chunked
encoding and `:`/`#` separators into it. Modelled from the spec: the textual
form is `<prefix>:<base58-chunked-payload>#<checksum>`; it round-trips exactly
and parsing distinguishes checksum mismatch, malformed chunk separators and
invalid characters. -/

/-- The base-58 alphabet (58 characters, digits and letters excluding
`0`, `O`, `I`, `l`). -/
def base58Alphabet : List Char :=
  "123456789ABCDEFGHJKLMNPQRSTUVWXYZabcdefghijkmnopqrstuvwxyz".toList

/-- Character at a position of an alphabet (total, defaulting to `1`). -/
def nthChar : List Char → Nat → Char
  | [], _ => '1'
  | c :: _, 0 => c
  | _ :: cs, n + 1 => nthChar cs n

/-- Position of a character in an alphabet. -/
def idxOf : List Char → Char → Nat
  | [], _ => 0
  | a :: as, c => if a = c then 0 else idxOf as c + 1

/-- Render one base-58 digit as a character. -/
def digitChar (d : Nat) : Char := nthChar base58Alphabet d

/-- Read one base-58 digit back from a character. -/
def charDigit (c : Char) : Nat := idxOf base58Alphabet c

/-- Whether a character belongs to the base-58 alphabet. -/
def isB58 (c : Char) : Bool := base58Alphabet.contains c

/-- Fuel-driven base-`b` digit extraction (least significant first). -/
def digitsF (b : Nat) : Nat → Nat → List Nat
  | 0, _ => []
  | _ + 1, 0 => []
  | fuel + 1, n + 1 => (n + 1) % b :: digitsF b fuel ((n + 1) / b)

/-- Base-58 digits of a number, least significant first. -/
def base58Digits (n : Nat) : List Nat := digitsF 58 n n

/-- Payload of an id: its base-58 digits rendered as characters. -/
def payloadChars (id : Nat) : List Char := (base58Digits id).map digitChar

/-- Insert a `:` chunk separator after every eight payload characters
(`n` counts the characters remaining in the current chunk). -/
def chunkAux : Nat → List Char → List Char
  | _, [] => []
  | 0, c :: rest => ':' :: c :: chunkAux 7 rest
  | n + 1, c :: rest => c :: chunkAux n rest

/-- Chunk a payload into groups of eight characters separated by `:`. -/
def chunkPayload (l : List Char) : List Char := chunkAux 8 l

/-- The human-readable identifier prefix. -/
def hriChars : List Char := "transfer".toList

/-- Format a transfer id:
`transfer:<chunked base58 payload>#<checksum character>`. -/
def formatTransferId (id : Nat) : List Char :=
  hriChars ++ ':' :: (chunkPayload (payloadChars id) ++ '#' :: [digitChar (id % 58)])

/-- Structured parse error, distinguishing the failure modes required by the
spec: wrong human-readable prefix, an invalid character, malformed chunk or
checksum separators, an over-long value, and a checksum mismatch. -/
inductive Baid58ParseError where
  | badHri
  | invalidCharacter (c : Char)
  | malformedSeparators
  | invalidLength
  | checksumMismatch
deriving DecidableEq

/-- Strip an expected leading character sequence. -/
def dropLead : List Char → List Char → Option (List Char)
  | [], s => some s
  | _ :: _, [] => none
  | p :: ps, c :: cs => if c = p then dropLead ps cs else none

/-- Split a character list at the first `#` into body and checksum part. -/
def splitHash : List Char → Option (List Char × List Char)
  | [] => none
  | c :: cs =>
    if c = '#' then some ([], cs)
    else (splitHash cs).map (fun bc => (c :: bc.1, bc.2))

/-- Parse the textual form of a transfer id. Checks, in order: the
`transfer:` prefix, the presence of the `#` checksum separator, that every
body character is base-58 or `:`, that the `:` separators sit exactly on the
chunk boundaries, the checksum character, the decoded value's width, and the
checksum itself. -/
def parseTransferId (s : List Char) : Except Baid58ParseError Nat :=
  match dropLead (hriChars ++ [':']) s with
  | none => Except.error Baid58ParseError.badHri
  | some rest =>
    match splitHash rest with
    | none => Except.error Baid58ParseError.malformedSeparators
    | some (body, chk) =>
      match body.find? (fun c => !(isB58 c || c == ':')) with
      | some c => Except.error (Baid58ParseError.invalidCharacter c)
      | none =>
        let payload := body.filter (fun c => c != ':')
        if chunkPayload payload = body then
          match chk with
          | [c] =>
            if isB58 c then
              let id := Nat.ofDigits 58 (payload.map charDigit)
              if 2 ^ 256 ≤ id then Except.error Baid58ParseError.invalidLength
              else if charDigit c = id % 58 then Except.ok id
              else Except.error Baid58ParseError.checksumMismatch
            else Except.error (Baid58ParseError.invalidCharacter c)
          | _ => Except.error Baid58ParseError.malformedSeparators
        else Except.error Baid58ParseError.malformedSeparators

/-! ## Indexed consignment (indexed.rs) -/

/-- BTreeMap::get on the sorted entry-list representation. -/
def mapGet (k : Nat) : List (Nat × Nat) → Option Nat
  | [] => none
  | kv :: rest => if k = kv.1 then some kv.2 else mapGet k rest

/-- BTreeMap::insert on the sorted entry-list representation: keeps entries
key-sorted and overwrites the value of an existing key. -/
def insertEntry (k v : Nat) : List (Nat × Nat) → List (Nat × Nat)
  | [] => [(k, v)]
  | kv :: rest =>
    if k < kv.1 then (k, v) :: kv :: rest
    else if k = kv.1 then (k, v) :: rest
    else kv :: insertEntry k v rest

/-- Inner loop of `IndexedConsignment::new`: record
`(opid, anchor.witness_id)` for every key of one bundle's known transitions. -/
def insertBundle (m : List (Nat × Nat)) (ab : AnchoredBundle) : List (Nat × Nat) :=
  ab.bundle.known_transitions.foldl (fun m kt => insertEntry kt.1 ab.anchor.witness_id m) m

/-- The bundle index built by `IndexedConsignment::new`: visit every anchored
bundle and record each known transition's opid against the bundle's anchor
witness id. -/
def buildIndex (bs : List AnchoredBundle) : List (Nat × Nat) :=
  bs.foldl insertBundle []

/-- The indexed consignment: a consignment together with its derived
operation-to-witness bundle index. -/
structure IndexedConsignment where
  consignment : Consignment
  op_witness_ids : List (Nat × Nat)
deriving DecidableEq

/-- IndexedConsignment::new (indexed.rs lines 53-64). -/
def IndexedConsignment.new (c : Consignment) : IndexedConsignment :=
  ⟨c, buildIndex c.bundles⟩

/-- IndexedConsignment::op_witness_id (indexed.rs lines 105-107). -/
def IndexedConsignment.op_witness_id (ic : IndexedConsignment) (opid : Nat) : Option Nat :=
  mapGet opid ic.op_witness_ids

/-- Reference to one operation of the consignment. -/
inductive OpRef where
  | genesis (g : Genesis)
  | transition (t : Nat)
  | extension (x : Extension)
deriving DecidableEq

/-- Consignment::transition. Modelled from the spec: the matching transition
if one is found among all bundles (searched in bundle order; the method lives
in `consignment.rs`, not among the given sources). -/
def findTransition (opid : Nat) : List AnchoredBundle → Option Nat
  | [] => none
  | ab :: rest =>
    match mapGet opid ab.bundle.known_transitions with
    | some t => some t
    | none => findTransition opid rest

/-- Consignment::extension. Modelled from the spec: the matching extension if
one is found (the method lives in `consignment.rs`, not among the given
sources). -/
def findExtension (opid : Nat) : List Extension → Option Extension
  | [] => none
  | x :: rest => if x.id = opid then some x else findExtension opid rest

/-- IndexedConsignment::operation (indexed.rs lines 76-83): the genesis if the
id matches the genesis id, else the matching transition, else the matching
extension, else none. -/
def IndexedConsignment.operation (ic : IndexedConsignment) (opid : Nat) : Option OpRef :=
  if opid = ic.consignment.genesis.id then some (OpRef.genesis ic.consignment.genesis)
  else
    match findTransition opid ic.consignment.bundles with
    | some t => some (OpRef.transition t)
    | none => (findExtension opid ic.consignment.extensions).map OpRef.extension

/-- Insert a pair into a lexicographically sorted duplicate-free pair list
(the effect of `BTreeSet::insert` on pairs). -/
def insertSortedPair (x : Nat × Nat) : List (Nat × Nat) → List (Nat × Nat)
  | [] => [x]
  | y :: ys =>
    if x.1 < y.1 ∨ (x.1 = y.1 ∧ x.2 < y.2) then x :: y :: ys
    else if x = y then y :: ys
    else y :: insertSortedPair x ys

/-- Collect a pair list into its canonical ordered-set form (the iteration
order of a `BTreeSet` of pairs). -/
def canonPairs (l : List (Nat × Nat)) : List (Nat × Nat) := l.foldr insertSortedPair []

/-- Flatten a terminal map into (bundle id, concealed seal value) pairs, one
per seal of each terminal. -/
def sealPairs : List (Nat × Terminal) → List (Nat × Nat)
  | [] => []
  | bt :: rest => bt.2.seals.map (fun s => (bt.1, (conceal s).hash)) ++ sealPairs rest

/-- IndexedConsignment::terminals (indexed.rs lines 87-95): the set of
(bundle id, concealed seal) pairs, one per seal of each terminal, collected
into a canonically ordered set. -/
def IndexedConsignment.terminals (ic : IndexedConsignment) : List (Nat × SecretSeal) :=
  (canonPairs (sealPairs ic.consignment.terminals)).map
    (fun p => (p.1, SecretSeal.mk p.2))

/-- Iterator over bundle ids: owns the snapshot of the bundle collection taken
when `bundle_ids` was called (`self.bundles.clone().into_iter()`). -/
structure BundleIdIter where
  rest : List AnchoredBundle
deriving DecidableEq

/-- Iterator::next for BundleIdIter (indexed.rs lines 121-127): the id of the
next snapshot bundle, or none when exhausted. -/
def BundleIdIter.next : BundleIdIter → Option (Nat × BundleIdIter)
  | ⟨[]⟩ => none
  | ⟨ab :: rest⟩ => some (ab.bundleId, ⟨rest⟩)

/-- IndexedConsignment::bundle_ids (indexed.rs line 97): iterate over a
snapshot copy of the bundle collection, in its canonical order. -/
def IndexedConsignment.bundle_ids (ic : IndexedConsignment) : BundleIdIter :=
  ⟨ic.consignment.bundles⟩

/-- Collect at most `n` items from the iterator. -/
def drainN : Nat → BundleIdIter → List Nat
  | 0, _ => []
  | n + 1, it =>
    match it.next with
    | none => []
    | some (b, it') => b :: drainN n it'

/-- Advance the iterator by `n` steps. -/
def skipN : Nat → BundleIdIter → BundleIdIter
  | 0, it => it
  | n + 1, it =>
    match it.next with
    | none => it
    | some (_, it') => skipN n it'

/-- Outcome of the adapter's program and type-system lookups, making panics
and a missing function body representable. -/
inductive LookupOutcome (α : Type) where
  | ok (a : α)
  | panicked (msg : String)
  | noBody
deriving DecidableEq

/-- Whether a lookup produced a defined (non-panicking, well-typed) result. -/
def LookupOutcome.isDefined : LookupOutcome α → Bool
  | LookupOutcome.ok _ => true
  | _ => false

/-- IndexedConsignment::type_system (indexed.rs line 115): the source body is
`todo!()`, which panics unconditionally for every identifier. -/
def IndexedConsignment.type_system (ic : IndexedConsignment) (id : Nat) : LookupOutcome Nat :=
  LookupOutcome.panicked "not yet implemented"

/-- IndexedConsignment::program (indexed.rs lines 109-113): the source body is
empty even though the signature promises a `Result`, so the function has no
well-typed body at all. -/
def IndexedConsignment.program (ic : IndexedConsignment) (libs : List Nat) : LookupOutcome Unit :=
  LookupOutcome.noBody

/-- Witness id of the last bundle, in the bundle collection's iteration order,
whose known transitions contain the given operation id (the value the index's
insert-with-overwrite construction leaves in place). -/
def lastWitness (o : Nat) : List AnchoredBundle → Option Nat
  | [] => none
  | ab :: rest =>
    match lastWitness o rest with
    | some w => some w
    | none =>
      if o ∈ ab.bundle.known_transitions.map Prod.fst then some ab.anchor.witness_id
      else none

/-- All operation ids covered by the bundles, in bundle order. -/
def opIds : List AnchoredBundle → List Nat
  | [] => []
  | ab :: rest => ab.bundle.known_transitions.map Prod.fst ++ opIds rest

/-! ## Concrete example inputs used by the witnesses -/

/-- Example anchored bundle: witness id 10, operations 1 and 2. -/
def bEx1 : AnchoredBundle := ⟨⟨10⟩, ⟨101, 201, [(1, 100), (2, 200)]⟩⟩

/-- Example anchored bundle: witness id 20, operation 3. -/
def bEx2 : AnchoredBundle := ⟨⟨20⟩, ⟨102, 202, [(3, 300)]⟩⟩

/-- Example consignment with two disjoint bundles. -/
def cEx : Consignment :=
  ⟨0, true, 9, ⟨5, 50⟩, [], [bEx1, bEx2], [], [], [], [], [], []⟩

/-- Example consignment for operation lookup: genesis id 5, a transition with
opid 7, and extensions with ids 7 and 9. -/
def cOp : Consignment :=
  ⟨0, true, 9, ⟨5, 50⟩, [], [⟨⟨30⟩, ⟨103, 203, [(7, 700)]⟩⟩], [⟨7, 77⟩, ⟨9, 99⟩],
    [], [], [], [], []⟩

/-- Example consignment with one terminal holding two seals. -/
def cTerm : Consignment :=
  ⟨0, true, 9, ⟨5, 50⟩, [], [], [], [(4, ⟨[7, 8]⟩)], [], [], [], []⟩

/-- Example transfer whose collection fields are in one insertion order. -/
def cPermA : Consignment :=
  ⟨1, true, 9, ⟨5, 50⟩, [1, 2], [bEx1, bEx2], [⟨7, 77⟩, ⟨9, 99⟩],
    [(4, ⟨[7, 8]⟩), (6, ⟨[11]⟩)], [3, 4], [5, 6], [(1, 2), (3, 4)], [(8, 9)]⟩

/-- The same transfer content as `cPermA` with every collection permuted. -/
def cPermB : Consignment :=
  ⟨1, true, 9, ⟨5, 50⟩, [2, 1], [bEx2, bEx1], [⟨9, 99⟩, ⟨7, 77⟩],
    [(6, ⟨[11]⟩), (4, ⟨[7, 8]⟩)], [4, 3], [6, 5], [(3, 4), (1, 2)], [(8, 9)]⟩

/-- Example transfer whose iface-implementation set exceeds the tiny bound. -/
def cBig : Consignment :=
  ⟨0, true, 9, ⟨5, 50⟩, List.range 257, [], [], [], [], [], [], []⟩

/-! ## Lemmas: canonically ordered sets -/

theorem mem_insertSorted (a x : Nat) (l : List Nat) :
    a ∈ insertSorted x l ↔ a = x ∨ a ∈ l := by
  induction l with
  | nil => simp [insertSorted]
  | cons y ys ih =>
    by_cases h1 : x < y
    · simp [insertSorted, h1, List.mem_cons]
    · by_cases h2 : x = y
      · subst h2
        have heq : insertSorted x (x :: ys) = x :: ys := by simp [insertSorted, h1]
        rw [heq, List.mem_cons]
        tauto
      · simp only [insertSorted, if_neg h1, if_neg h2, List.mem_cons, ih]
        tauto

theorem mem_canon (a : Nat) (l : List Nat) : a ∈ canon l ↔ a ∈ l := by
  induction l with
  | nil => simp [canon]
  | cons x xs ih =>
    show a ∈ insertSorted x (canon xs) ↔ _
    rw [mem_insertSorted, ih]
    simp [List.mem_cons]

theorem pairwise_insertSorted (x : Nat) (l : List Nat) (h : l.Pairwise (· < ·)) :
    (insertSorted x l).Pairwise (· < ·) := by
  induction l with
  | nil => simp [insertSorted]
  | cons y ys ih =>
    rcases List.pairwise_cons.mp h with ⟨hy, hys⟩
    by_cases h1 : x < y
    · simp only [insertSorted, if_pos h1]
      refine List.pairwise_cons.mpr ⟨?_, h⟩
      intro b hb
      rcases List.mem_cons.mp hb with hb | hb
      · omega
      · have := hy b hb
        omega
    · by_cases h2 : x = y
      · simpa [insertSorted, h1, h2] using h
      · have h3 : y < x := by omega
        simp only [insertSorted, if_neg h1, if_neg h2]
        refine List.pairwise_cons.mpr ⟨?_, ih hys⟩
        intro b hb
        rcases (mem_insertSorted b x ys).mp hb with hb | hb
        · omega
        · exact hy b hb

theorem pairwise_canon (l : List Nat) : (canon l).Pairwise (· < ·) := by
  induction l with
  | nil => simp [canon]
  | cons x xs ih => exact pairwise_insertSorted x (canon xs) ih

theorem pairwiseLt_eq :
    ∀ {l₁ l₂ : List Nat}, l₁.Pairwise (· < ·) → l₂.Pairwise (· < ·) →
      (∀ a, a ∈ l₁ ↔ a ∈ l₂) → l₁ = l₂ := by
  intro l₁
  induction l₁ with
  | nil =>
    intro l₂ _ _ hmem
    cases l₂ with
    | nil => rfl
    | cons b t₂ => exact absurd ((hmem b).mpr (List.mem_cons_self b t₂)) (List.not_mem_nil b)
  | cons a t ih =>
    intro l₂ h₁ h₂ hmem
    cases l₂ with
    | nil => exact absurd ((hmem a).mp (List.mem_cons_self a t)) (List.not_mem_nil a)
    | cons b t₂ =>
      rcases List.pairwise_cons.mp h₁ with ⟨ha, ht₁⟩
      rcases List.pairwise_cons.mp h₂ with ⟨hb, ht₂⟩
      have hab : a = b := by
        have hm1 : a ∈ b :: t₂ := (hmem a).mp (List.mem_cons_self a t)
        have hm2 : b ∈ a :: t := (hmem b).mpr (List.mem_cons_self b t₂)
        rcases List.mem_cons.mp hm1 with hc1 | hc1
        · exact hc1
        rcases List.mem_cons.mp hm2 with hc2 | hc2
        · exact hc2.symm
        have hba := hb a hc1
        have hab' := ha b hc2
        omega
      subst hab
      have htail : ∀ x, x ∈ t ↔ x ∈ t₂ := by
        intro x
        constructor
        · intro hx
          have hax := ha x hx
          have hx2 : x ∈ a :: t₂ := (hmem x).mp (List.mem_cons_of_mem a hx)
          rcases List.mem_cons.mp hx2 with hc | hc
          · omega
          · exact hc
        · intro hx
          have hax := hb x hx
          have hx2 : x ∈ a :: t := (hmem x).mpr (List.mem_cons_of_mem a hx)
          rcases List.mem_cons.mp hx2 with hc | hc
          · omega
          · exact hc
      rw [ih ht₁ ht₂ htail]

theorem canon_congr {l₁ l₂ : List Nat} (h : ∀ a, a ∈ l₁ ↔ a ∈ l₂) :
    canon l₁ = canon l₂ :=
  pairwiseLt_eq (pairwise_canon l₁) (pairwise_canon l₂)
    (fun a => (mem_canon a l₁).trans ((h a).trans (mem_canon a l₂).symm))

theorem canon_perm {l₁ l₂ : List Nat} (h : l₁.Perm l₂) : canon l₁ = canon l₂ :=
  canon_congr (fun a => h.mem_iff)

/-! ## Lemmas: commitment encoder -/

theorem commit_encode_items (c : Consignment) :
    (c.commit_encode ⟨[]⟩).items =
      [Item.serialized c.version,
       Item.serialized (boolNat c.transfer),
       Item.serialized c.contract_id,
       Item.serialized c.genesis.disclose_hash,
       Item.oset Bound.tiny (canon c.ifaces),
       Item.oset Bound.large (canon (c.bundles.map (fun ab => ab.bundle.disclose_hash))),
       Item.oset Bound.large (canon (c.extensions.map Extension.disclose_hash)),
       Item.oset Bound.small (canon c.terminals_disclose),
       Item.oset Bound.small (canon c.attachments),
       Item.oset Bound.declared (canon c.supplements),
       Item.omap Bound.declared (canon (c.asset_tags.map pairNat)),
       Item.omap Bound.declared (canon (c.signatures.map pairNat))] := rfl

theorem mem_sealEntries (a : Nat) (ts : List (Nat × Terminal)) :
    a ∈ sealEntries ts ↔
      ∃ bt, bt ∈ ts ∧ ∃ s, s ∈ bt.2.seals ∧ a = Nat.pair bt.1 (conceal s).hash := by
  induction ts with
  | nil => simp [sealEntries]
  | cons bt rest ih =>
    simp only [sealEntries, List.mem_append, List.mem_map, ih, List.mem_cons]
    constructor
    · rintro (⟨s, hs, rfl⟩ | ⟨bt', hbt', s, hs, rfl⟩)
      · exact ⟨bt, Or.inl rfl, s, hs, rfl⟩
      · exact ⟨bt', Or.inr hbt', s, hs, rfl⟩
    · rintro ⟨bt', hbt' | hbt', s, hs, rfl⟩
      · subst hbt'
        exact Or.inl ⟨s, hs, rfl⟩
      · exact Or.inr ⟨bt', hbt', s, hs, rfl⟩

/-- C1: computing a Transfer's id feeds the hash engine, for every transfer, in
the exact fixed 12-step order: version tag, transfer kind tag, contract id,
genesis disclosure hash, set of interface-implementation ids, set of bundle
disclosure hashes, set of extension disclosure hashes, set of terminal
(bundle id, concealed seal) pairs, set of attachment ids, set of supplements,
map of asset tags, map of signatures — no step omitted, none reordered. -/
theorem transfer_commit_twelve_step_order (c : Transfer) :
    (c.commit_encode ⟨[]⟩).items =
      [Item.serialized c.version,
       Item.serialized (boolNat c.transfer),
       Item.serialized c.contract_id,
       Item.serialized c.genesis.disclose_hash,
       Item.oset Bound.tiny (canon c.ifaces),
       Item.oset Bound.large (canon (c.bundles.map (fun ab => ab.bundle.disclose_hash))),
       Item.oset Bound.large (canon (c.extensions.map Extension.disclose_hash)),
       Item.oset Bound.small (canon c.terminals_disclose),
       Item.oset Bound.small (canon c.attachments),
       Item.oset Bound.declared (canon c.supplements),
       Item.omap Bound.declared (canon (c.asset_tags.map pairNat)),
       Item.omap Bound.declared (canon (c.signatures.map pairNat))] :=
  commit_encode_items c

/-- C2: permuting the insertion order of the set- or map-typed fields (ifaces,
bundles, extensions, terminals, attachments, supplements, asset tags,
signatures) while holding their content fixed leaves `transfer_id` unchanged. -/
theorem transfer_id_order_invariant (c₁ c₂ : Transfer)
    (hv : c₁.version = c₂.version)
    (ht : c₁.transfer = c₂.transfer)
    (hg : c₁.genesis = c₂.genesis)
    (hif : c₁.ifaces.Perm c₂.ifaces)
    (hb : c₁.bundles.Perm c₂.bundles)
    (hx : c₁.extensions.Perm c₂.extensions)
    (hterm : c₁.terminals.Perm c₂.terminals)
    (hat : c₁.attachments.Perm c₂.attachments)
    (hsup : c₁.supplements.Perm c₂.supplements)
    (htag : c₁.asset_tags.Perm c₂.asset_tags)
    (hsig : c₁.signatures.Perm c₂.signatures) :
    c₁.transfer_id = c₂.transfer_id := by
  have eterm : canon c₁.terminals_disclose = canon c₂.terminals_disclose := by
    apply canon_congr
    intro a
    show a ∈ sealEntries c₁.terminals ↔ a ∈ sealEntries c₂.terminals
    rw [mem_sealEntries, mem_sealEntries]
    simp only [hterm.mem_iff]
  show TransferId.mk commitmentTag (c₁.commit_encode ⟨[]⟩).items
      = TransferId.mk commitmentTag (c₂.commit_encode ⟨[]⟩).items
  rw [commit_encode_items, commit_encode_items]
  simp only [Consignment.contract_id, hv, ht, hg, eterm,
    canon_perm hif, canon_perm (hb.map (fun ab => ab.bundle.disclose_hash)),
    canon_perm (hx.map Extension.disclose_hash), canon_perm hat, canon_perm hsup,
    canon_perm (htag.map pairNat), canon_perm (hsig.map pairNat)]

/-- Witness for C2: two concrete transfers with every collection permuted have
the same transfer id. -/
theorem transfer_id_order_invariant_witness : cPermA.transfer_id = cPermB.transfer_id :=
  transfer_id_order_invariant cPermA cPermB rfl rfl rfl (by decide) (by decide)
    (by decide) (by decide) (by decide) (by decide) (by decide) (by decide)

/-! ## Lemmas: bound-checked commitment -/

theorem try_from_iter_cases (m : Nat) (l : List Nat) :
    (try_from_iter m l = Except.ok (canon l) ∧ (canon l).length ≤ m) ∨
      (try_from_iter m l = Except.error (ConfinementError.oversize m (canon l).length) ∧
        m < (canon l).length) := by
  unfold try_from_iter
  by_cases h : (canon l).length ≤ m
  · exact Or.inl ⟨by simp [h], h⟩
  · exact Or.inr ⟨by simp [h], by omega⟩

theorem commitEncodeChecked_agrees (c : Consignment)
    (h1 : (canon c.ifaces).length ≤ tinyBound)
    (h2 : (canon (c.bundles.map (fun ab => ab.bundle.disclose_hash))).length ≤ largeBound)
    (h3 : (canon (c.extensions.map Extension.disclose_hash)).length ≤ largeBound)
    (h4 : (canon c.terminals_disclose).length ≤ smallBound)
    (h5 : (canon c.attachments).length ≤ smallBound) :
    c.commitEncodeChecked = Except.ok (c.commit_encode ⟨[]⟩).items := by
  simp only [Consignment.commitEncodeChecked, try_from_iter, h1, h2, h3, h4, h5,
    if_true, ite_true, commit_encode_items]
  rfl

/-- C3: a transfer whose committed collection exceeds its declared size bound
(more than `2 ^ 8` iface-implementation ids for the tiny set, or past the
small/large bounds of the other commit-time sets) fails the commitment
immediately with a size-limit error; the collection is never truncated or
wrapped. -/
theorem oversized_commit_fails (c : Transfer)
    (h : tinyBound < (canon c.ifaces).length ∨
      largeBound < (canon (c.bundles.map (fun ab => ab.bundle.disclose_hash))).length ∨
      largeBound < (canon (c.extensions.map Extension.disclose_hash)).length ∨
      smallBound < (canon c.terminals_disclose).length ∨
      smallBound < (canon c.attachments).length) :
    ∃ mx n, c.commitEncodeChecked = Except.error (ConfinementError.oversize mx n) ∧ mx < n := by
  rcases try_from_iter_cases tinyBound c.ifaces with ⟨h1, hb1⟩ | ⟨h1, hb1⟩
  · rcases try_from_iter_cases largeBound
        (c.bundles.map (fun ab => ab.bundle.disclose_hash)) with ⟨h2, hb2⟩ | ⟨h2, hb2⟩
    · rcases try_from_iter_cases largeBound
          (c.extensions.map Extension.disclose_hash) with ⟨h3, hb3⟩ | ⟨h3, hb3⟩
      · rcases try_from_iter_cases smallBound c.terminals_disclose with ⟨h4, hb4⟩ | ⟨h4, hb4⟩
        · rcases try_from_iter_cases smallBound c.attachments with ⟨h5, hb5⟩ | ⟨h5, hb5⟩
          · exfalso
            rcases h with h | h | h | h | h <;> omega
          · refine ⟨smallBound, (canon c.attachments).length, ?_, hb5⟩
            simp only [Consignment.commitEncodeChecked, h1, h2, h3, h4, h5]
            rfl
        · refine ⟨smallBound, (canon c.terminals_disclose).length, ?_, hb4⟩
          simp only [Consignment.commitEncodeChecked, h1, h2, h3, h4]
          rfl
      · refine ⟨largeBound, (canon (c.extensions.map Extension.disclose_hash)).length, ?_, hb3⟩
        simp only [Consignment.commitEncodeChecked, h1, h2, h3]
        rfl
    · refine ⟨largeBound,
        (canon (c.bundles.map (fun ab => ab.bundle.disclose_hash))).length, ?_, hb2⟩
      simp only [Consignment.commitEncodeChecked, h1, h2]
      rfl
  · refine ⟨tinyBound, (canon c.ifaces).length, ?_, hb1⟩
    simp only [Consignment.commitEncodeChecked, h1]
    rfl

/-- Witness for C3: a transfer with 257 distinct iface-implementation ids
fails the bound-checked commitment with a size-limit error. -/
theorem oversized_commit_fails_witness :
    ∃ mx n, cBig.commitEncodeChecked = Except.error (ConfinementError.oversize mx n) ∧ mx < n :=
  oversized_commit_fails cBig (Or.inl (by decide))

/-! ## Lemmas: the bundle index -/

theorem mapGet_insertEntry_self (k v : Nat) (m : List (Nat × Nat)) :
    mapGet k (insertEntry k v m) = some v := by
  induction m with
  | nil => simp [insertEntry, mapGet]
  | cons kv rest ih =>
    by_cases h1 : k < kv.1
    · simp [insertEntry, h1, mapGet]
    · by_cases h2 : k = kv.1
      · simp [insertEntry, h1, h2, mapGet]
      · simp [insertEntry, h1, h2, mapGet, ih]

theorem mapGet_insertEntry_ne (k k' v : Nat) (m : List (Nat × Nat)) (h : k ≠ k') :
    mapGet k (insertEntry k' v m) = mapGet k m := by
  induction m with
  | nil => simp [insertEntry, mapGet, h]
  | cons kv rest ih =>
    by_cases h1 : k' < kv.1
    · simp [insertEntry, h1, mapGet, h]
    · by_cases h2 : k' = kv.1
      · have h' : k ≠ kv.1 := h2 ▸ h
        simp [insertEntry, h1, h2, mapGet, h, h']
      · simp [insertEntry, h1, h2, mapGet, ih]

theorem mapGet_foldl_insert (o w : Nat) (kts : List (Nat × Nat)) (m : List (Nat × Nat)) :
    mapGet o (kts.foldl (fun m kt => insertEntry kt.1 w m) m)
      = if o ∈ kts.map Prod.fst then some w else mapGet o m := by
  induction kts generalizing m with
  | nil => simp
  | cons kt rest ih =>
    simp only [List.foldl_cons, ih, List.map_cons, List.mem_cons]
    by_cases h : o ∈ rest.map Prod.fst
    · simp [h]
    · by_cases h2 : o = kt.1
      · simp [h, h2, mapGet_insertEntry_self]
      · simp [h, h2, mapGet_insertEntry_ne o kt.1 w m h2]

theorem mapGet_insertBundle (o : Nat) (m : List (Nat × Nat)) (ab : AnchoredBundle) :
    mapGet o (insertBundle m ab) =
      if o ∈ ab.bundle.known_transitions.map Prod.fst then some ab.anchor.witness_id
      else mapGet o m :=
  mapGet_foldl_insert o ab.anchor.witness_id ab.bundle.known_transitions m

theorem mapGet_foldl_bundles (o : Nat) (bs : List AnchoredBundle) (m : List (Nat × Nat)) :
    mapGet o (bs.foldl insertBundle m) =
      match lastWitness o bs with
      | some w => some w
      | none => mapGet o m := by
  induction bs generalizing m with
  | nil => simp [lastWitness]
  | cons ab rest ih =>
    simp only [List.foldl_cons, ih, lastWitness]
    cases hlw : lastWitness o rest with
    | some w => simp
    | none =>
      simp only [mapGet_insertBundle]
      by_cases h : o ∈ ab.bundle.known_transitions.map Prod.fst <;> simp [h]

theorem buildIndex_get (o : Nat) (bs : List AnchoredBundle) :
    mapGet o (buildIndex bs) = lastWitness o bs := by
  unfold buildIndex
  rw [mapGet_foldl_bundles]
  cases lastWitness o bs <;> simp [mapGet]

theorem length_insertEntry_fresh (k v : Nat) (m : List (Nat × Nat)) (h : mapGet k m = none) :
    (insertEntry k v m).length = m.length + 1 := by
  induction m with
  | nil => simp [insertEntry]
  | cons kv rest ih =>
    simp only [mapGet] at h
    by_cases h2 : k = kv.1
    · rw [if_pos h2] at h
      cases h
    · rw [if_neg h2] at h
      by_cases h1 : k < kv.1
      · simp [insertEntry, h1]
      · simp [insertEntry, h1, h2, ih h]

theorem length_foldl_insert_fresh (w : Nat) (kts : List (Nat × Nat)) (m : List (Nat × Nat))
    (hnd : (kts.map Prod.fst).Nodup)
    (hfresh : ∀ k ∈ kts.map Prod.fst, mapGet k m = none) :
    (kts.foldl (fun m kt => insertEntry kt.1 w m) m).length = m.length + kts.length := by
  induction kts generalizing m with
  | nil => simp
  | cons kt rest ih =>
    simp only [List.map_cons, List.nodup_cons] at hnd
    obtain ⟨hknotin, hndrest⟩ := hnd
    simp only [List.foldl_cons]
    have hfreshkt : mapGet kt.1 m = none := hfresh kt.1 (by simp)
    have hrest : ∀ k ∈ rest.map Prod.fst, mapGet k (insertEntry kt.1 w m) = none := by
      intro k hk
      rw [mapGet_insertEntry_ne k kt.1 w m (fun he => hknotin (he ▸ hk))]
      exact hfresh k (by simp [hk])
    rw [ih (insertEntry kt.1 w m) hndrest hrest,
      length_insertEntry_fresh kt.1 w m hfreshkt]
    simp only [List.length_cons]
    omega

theorem length_buildIndex (bs : List AnchoredBundle) (m : List (Nat × Nat))
    (hnd : (opIds bs).Nodup)
    (hfresh : ∀ k ∈ opIds bs, mapGet k m = none) :
    (bs.foldl insertBundle m).length = m.length + (opIds bs).length := by
  induction bs generalizing m with
  | nil => simp [opIds]
  | cons ab rest ih =>
    simp only [opIds, List.nodup_append] at hnd
    obtain ⟨hnd1, hnd2, hdisj⟩ := hnd
    simp only [List.foldl_cons]
    have hfresh1 : ∀ k ∈ ab.bundle.known_transitions.map Prod.fst, mapGet k m = none := by
      intro k hk
      exact hfresh k (by simp [opIds, List.mem_append, hk])
    have hfresh2 : ∀ k ∈ opIds rest, mapGet k (insertBundle m ab) = none := by
      intro k hk
      rw [mapGet_insertBundle]
      have hne : k ∉ ab.bundle.known_transitions.map Prod.fst := fun hmem => hdisj hmem hk
      rw [if_neg hne]
      exact hfresh k (by simp [opIds, List.mem_append, hk])
    rw [ih (insertBundle m ab) hnd2 hfresh2]
    unfold insertBundle
    rw [length_foldl_insert_fresh ab.anchor.witness_id ab.bundle.known_transitions m hnd1 hfresh1]
    simp [opIds]
    omega

theorem lastWitness_eq_none (o : Nat) (bs : List AnchoredBundle) (h : o ∉ opIds bs) :
    lastWitness o bs = none := by
  induction bs with
  | nil => rfl
  | cons ab rest ih =>
    simp only [opIds, List.mem_append, not_or] at h
    obtain ⟨h1, h2⟩ := h
    simp [lastWitness, ih h2, h1]

theorem lastWitness_of_mem (o : Nat) (bs : List AnchoredBundle) (ab : AnchoredBundle)
    (hnd : (opIds bs).Nodup) (hab : ab ∈ bs)
    (ho : o ∈ ab.bundle.known_transitions.map Prod.fst) :
    lastWitness o bs = some ab.anchor.witness_id := by
  induction bs with
  | nil => cases hab
  | cons b rest ih =>
    simp only [opIds, List.nodup_append] at hnd
    obtain ⟨hnd1, hnd2, hdisj⟩ := hnd
    rcases List.mem_cons.mp hab with rfl | hab'
    · have hno : o ∉ opIds rest := fun hmem => hdisj ho hmem
      simp [lastWitness, lastWitness_eq_none o rest hno, ho]
    · have hsome := ih hnd2 hab'
      simp [lastWitness, hsome]

/-- C4: for a consignment whose bundles cover each operation exactly once, the
bundle index has exactly one entry per operation, `op_witness_id` returns the
witness id of the unique bundle containing the operation, and returns none for
every operation id not present in any bundle. -/
theorem bundle_index_complete (c : Consignment) (hnd : (opIds c.bundles).Nodup) :
    (IndexedConsignment.new c).op_witness_ids.length = (opIds c.bundles).length ∧
    (∀ ab ∈ c.bundles, ∀ o ∈ ab.bundle.known_transitions.map Prod.fst,
      (IndexedConsignment.new c).op_witness_id o = some ab.anchor.witness_id) ∧
    (∀ o, o ∉ opIds c.bundles → (IndexedConsignment.new c).op_witness_id o = none) := by
  refine ⟨?_, ?_, ?_⟩
  · have h := length_buildIndex c.bundles [] hnd (fun k _ => rfl)
    simpa [IndexedConsignment.new, buildIndex] using h
  · intro ab hab o ho
    show mapGet o (buildIndex c.bundles) = _
    rw [buildIndex_get, lastWitness_of_mem o c.bundles ab hnd hab ho]
  · intro o ho
    show mapGet o (buildIndex c.bundles) = none
    rw [buildIndex_get, lastWitness_eq_none o c.bundles ho]

/-- Witness for C4: on the two-bundle example, the index has three entries,
each operation maps to its bundle's witness, and an unknown id is absent. -/
theorem bundle_index_complete_witness :
    (IndexedConsignment.new cEx).op_witness_ids.length = 3 ∧
    (IndexedConsignment.new cEx).op_witness_id 1 = some 10 ∧
    (IndexedConsignment.new cEx).op_witness_id 3 = some 20 ∧
    (IndexedConsignment.new cEx).op_witness_id 99 = none := by
  have h := bundle_index_complete cEx (by decide)
  exact ⟨h.1.trans (by decide), h.2.1 bEx1 (by decide) 1 (by decide),
    h.2.1 bEx2 (by decide) 3 (by decide), h.2.2 99 (by decide)⟩

/-- C5: `operation` resolves an op id against the genesis first, then the
transitions of all bundles, then the extensions, returning the first match and
none when nothing matches. -/
theorem operation_resolution_order (c : Consignment) (opid : Nat) :
    (opid = c.genesis.id →
      (IndexedConsignment.new c).operation opid = some (OpRef.genesis c.genesis)) ∧
    (opid ≠ c.genesis.id → ∀ t, findTransition opid c.bundles = some t →
      (IndexedConsignment.new c).operation opid = some (OpRef.transition t)) ∧
    (opid ≠ c.genesis.id → findTransition opid c.bundles = none →
      ∀ x, findExtension opid c.extensions = some x →
      (IndexedConsignment.new c).operation opid = some (OpRef.extension x)) ∧
    (opid ≠ c.genesis.id → findTransition opid c.bundles = none →
      findExtension opid c.extensions = none →
      (IndexedConsignment.new c).operation opid = none) := by
  refine ⟨?_, ?_, ?_, ?_⟩
  · intro h
    simp [IndexedConsignment.operation, IndexedConsignment.new, h]
  · intro h t ht
    simp [IndexedConsignment.operation, IndexedConsignment.new, h, ht]
  · intro h ht x hx
    simp [IndexedConsignment.operation, IndexedConsignment.new, h, ht, hx]
  · intro h ht hx
    simp [IndexedConsignment.operation, IndexedConsignment.new, h, ht, hx]

/-- Witness for C5: genesis lookup, transition-before-extension priority at a
shared id, extension lookup, and an unknown id, on a concrete consignment. -/
theorem operation_resolution_order_witness :
    (IndexedConsignment.new cOp).operation 5 = some (OpRef.genesis ⟨5, 50⟩) ∧
    (IndexedConsignment.new cOp).operation 7 = some (OpRef.transition 700) ∧
    (IndexedConsignment.new cOp).operation 9 = some (OpRef.extension ⟨9, 99⟩) ∧
    (IndexedConsignment.new cOp).operation 11 = none := by
  have h5 := operation_resolution_order cOp 5
  have h7 := operation_resolution_order cOp 7
  have h9 := operation_resolution_order cOp 9
  have h11 := operation_resolution_order cOp 11
  exact ⟨h5.1 (by decide), h7.2.1 (by decide) 700 (by decide),
    h9.2.2.1 (by decide) (by decide) ⟨9, 99⟩ (by decide),
    h11.2.2.2 (by decide) (by decide) (by decide)⟩

theorem mem_insertSortedPair (a x : Nat × Nat) (l : List (Nat × Nat)) :
    a ∈ insertSortedPair x l ↔ a = x ∨ a ∈ l := by
  induction l with
  | nil => simp [insertSortedPair]
  | cons y ys ih =>
    by_cases h1 : x.1 < y.1 ∨ (x.1 = y.1 ∧ x.2 < y.2)
    · simp [insertSortedPair, h1, List.mem_cons]
    · by_cases h2 : x = y
      · subst h2
        have heq : insertSortedPair x (x :: ys) = x :: ys := by simp [insertSortedPair, h1]
        rw [heq, List.mem_cons]
        tauto
      · simp only [insertSortedPair, if_neg h1, if_neg h2, List.mem_cons, ih]
        tauto

theorem mem_canonPairs (a : Nat × Nat) (l : List (Nat × Nat)) :
    a ∈ canonPairs l ↔ a ∈ l := by
  induction l with
  | nil => simp [canonPairs]
  | cons x xs ih =>
    show a ∈ insertSortedPair x (canonPairs xs) ↔ _
    rw [mem_insertSortedPair, ih]
    simp [List.mem_cons]

theorem mem_sealPairs (a : Nat × Nat) (ts : List (Nat × Terminal)) :
    a ∈ sealPairs ts ↔
      ∃ bt, bt ∈ ts ∧ ∃ s, s ∈ bt.2.seals ∧ a = (bt.1, (conceal s).hash) := by
  induction ts with
  | nil => simp [sealPairs]
  | cons bt rest ih =>
    simp only [sealPairs, List.mem_append, List.mem_map, ih, List.mem_cons]
    constructor
    · rintro (⟨s, hs, rfl⟩ | ⟨bt', hbt', s, hs, rfl⟩)
      · exact ⟨bt, Or.inl rfl, s, hs, rfl⟩
      · exact ⟨bt', Or.inr hbt', s, hs, rfl⟩
    · rintro ⟨bt', hbt' | hbt', s, hs, rfl⟩
      · subst hbt'
        exact Or.inl ⟨s, hs, rfl⟩
      · exact Or.inr ⟨bt', hbt', s, hs, rfl⟩

/-- C6: every entry of `terminals` couples a bundle id of the terminal map
with the concealment of one of that terminal's seals; no entry holds a
revealed seal. -/
theorem terminals_always_concealed (c : Consignment) (e : Nat × SecretSeal)
    (he : e ∈ (IndexedConsignment.new c).terminals) :
    ∃ bid t s, (bid, t) ∈ c.terminals ∧ s ∈ t.seals ∧ e = (bid, conceal s) := by
  simp only [IndexedConsignment.terminals, IndexedConsignment.new, List.mem_map] at he
  obtain ⟨p, hp, rfl⟩ := he
  rw [mem_canonPairs, mem_sealPairs] at hp
  obtain ⟨bt, hbt, s, hs, rfl⟩ := hp
  refine ⟨bt.1, bt.2, s, ?_, hs, ?_⟩
  · simpa using hbt
  · simp [conceal]

/-- Witness for C6: the entry (4, conceal 7) of the concrete example's
terminals arises as the concealment of seal 7 of the terminal at bundle 4. -/
theorem terminals_always_concealed_witness :
    ∃ bid t s, (bid, t) ∈ cTerm.terminals ∧ s ∈ t.seals ∧
      ((4 : Nat), conceal 7) = (bid, conceal s) :=
  terminals_always_concealed cTerm (4, conceal 7) (by decide)

/-- C8: `bundle_ids` yields exactly one id per anchored bundle, in the
snapshot's order, and after one full pass the iterator yields nothing
further. -/
theorem bundle_ids_single_pass (c : Consignment) :
    drainN c.bundles.length ((IndexedConsignment.new c).bundle_ids) =
      c.bundles.map AnchoredBundle.bundleId ∧
    BundleIdIter.next (skipN c.bundles.length ((IndexedConsignment.new c).bundle_ids)) = none := by
  have key : ∀ l : List AnchoredBundle,
      drainN l.length ⟨l⟩ = l.map AnchoredBundle.bundleId ∧
        BundleIdIter.next (skipN l.length ⟨l⟩) = none := by
    intro l
    induction l with
    | nil => exact ⟨rfl, rfl⟩
    | cons ab rest ih =>
      constructor
      · show drainN (rest.length + 1) ⟨ab :: rest⟩ = _
        simp [drainN, BundleIdIter.next, ih.1]
      · show BundleIdIter.next (skipN rest.length ⟨rest⟩) = none
        exact ih.2
  exact key c.bundles

/-- C9: the adapter's type-system lookup panics (`todo!()`) on every input and
its program lookup has no well-typed body, so neither returns a defined
result — the code contradicts the claim that every input yields a defined
success or not-found value. -/
theorem program_type_system_undefined (ic : IndexedConsignment) (id : Nat) (libs : List Nat) :
    (ic.type_system id).isDefined = false ∧ (ic.program libs).isDefined = false :=
  ⟨rfl, rfl⟩

/-- C10: the index construction never fails, and when the same op id occurs in
the known transitions of several bundles, the entry left in the index is the
witness id of the last such bundle in iteration order (earlier inserts are
silently overwritten). -/
theorem op_witness_id_last_bundle_wins (c : Consignment) (o : Nat) :
    (IndexedConsignment.new c).op_witness_id o = lastWitness o c.bundles :=
  buildIndex_get o c.bundles

/-! ## Lemmas: textual identifier codec -/

theorem digitsF_eq_digits : ∀ (fuel n : Nat), n ≤ fuel → digitsF 58 fuel n = Nat.digits 58 n := by
  intro fuel
  induction fuel with
  | zero =>
    intro n h
    have hn : n = 0 := Nat.le_zero.mp h
    subst hn
    show ([] : List Nat) = Nat.digits 58 0
    rw [Nat.digits_zero]
  | succ fuel ih =>
    intro n h
    match n with
    | 0 =>
      show ([] : List Nat) = Nat.digits 58 0
      rw [Nat.digits_zero]
    | m + 1 =>
      show (m + 1) % 58 :: digitsF 58 fuel ((m + 1) / 58) = _
      have hdiv : (m + 1) / 58 < m + 1 := Nat.div_lt_self (Nat.succ_pos m) (by norm_num)
      rw [Nat.digits_def' (by norm_num : (1 : Nat) < 58) (Nat.succ_pos m),
        ih ((m + 1) / 58) (by omega)]

theorem base58Digits_eq (n : Nat) : base58Digits n = Nat.digits 58 n :=
  digitsF_eq_digits n n le_rfl

theorem ofDigits_base58Digits (n : Nat) : Nat.ofDigits 58 (base58Digits n) = n := by
  rw [base58Digits_eq, Nat.ofDigits_digits]

theorem base58Digits_lt (n : Nat) : ∀ d ∈ base58Digits n, d < 58 := by
  rw [base58Digits_eq]
  exact fun d hd => Nat.digits_lt_base (by norm_num) hd

theorem alphaRound : ∀ d, d < 58 → charDigit (digitChar d) = d := by decide

theorem alphaValid : ∀ d, d < 58 → isB58 (digitChar d) = true := by decide

theorem alphaNotSep : ∀ d, d < 58 → digitChar d ≠ ':' ∧ digitChar d ≠ '#' := by decide

theorem mem_chunkAux (c : Char) : ∀ (l : List Char) (n : Nat), c ∈ chunkAux n l → c = ':' ∨ c ∈ l := by
  intro l
  induction l with
  | nil =>
    intro n h
    simp [chunkAux] at h
  | cons a rest ih =>
    intro n h
    cases n with
    | zero =>
      simp only [chunkAux, List.mem_cons] at h
      rcases h with rfl | rfl | h
      · exact Or.inl rfl
      · exact Or.inr (by simp)
      · rcases ih 7 h with h' | h'
        · exact Or.inl h'
        · exact Or.inr (by simp [h'])
    | succ k =>
      simp only [chunkAux, List.mem_cons] at h
      rcases h with rfl | h
      · exact Or.inr (by simp)
      · rcases ih k h with h' | h'
        · exact Or.inl h'
        · exact Or.inr (by simp [h'])

theorem filter_chunkAux : ∀ (l : List Char), (∀ c ∈ l, c ≠ ':') →
    ∀ n, (chunkAux n l).filter (fun c => c != ':') = l := by
  intro l
  induction l with
  | nil =>
    intro _ n
    simp [chunkAux]
  | cons a rest ih =>
    intro hl n
    have ha : a ≠ ':' := hl a (by simp)
    have hrest : ∀ c ∈ rest, c ≠ ':' := fun c hc => hl c (by simp [hc])
    cases n with
    | zero =>
      show ((':' :: a :: chunkAux 7 rest).filter (fun c => c != ':')) = a :: rest
      simp [List.filter_cons, ha, ih hrest 7]
    | succ k =>
      show ((a :: chunkAux k rest).filter (fun c => c != ':')) = a :: rest
      simp [List.filter_cons, ha, ih hrest k]

theorem dropLead_append (p s : List Char) : dropLead p (p ++ s) = some s := by
  induction p with
  | nil => rfl
  | cons a ps ih => simp [dropLead, ih]

theorem splitHash_append (body t : List Char) (h : '#' ∉ body) :
    splitHash (body ++ '#' :: t) = some (body, t) := by
  induction body with
  | nil => simp [splitHash]
  | cons a rest ih =>
    have ha : a ≠ '#' := fun he => h (by simp [he])
    have hrest : '#' ∉ rest := fun hm => h (by simp [hm])
    simp [splitHash, ha, ih hrest]

theorem find?_invalid_none (body : List Char)
    (h : ∀ c ∈ body, (isB58 c || c == ':') = true) :
    body.find? (fun c => !(isB58 c || c == ':')) = none := by
  induction body with
  | nil => rfl
  | cons a rest ih =>
    have ha := h a (by simp)
    have hpa : (!(isB58 a || a == ':')) = false := by simp [ha]
    show List.find? (fun c => !(isB58 c || c == ':')) (a :: rest) = none
    rw [List.find?_cons, hpa]
    exact ih (fun c hc => h c (by simp [hc]))

theorem payloadChars_in_alphabet (id : Nat) :
    ∀ c ∈ payloadChars id, isB58 c = true ∧ c ≠ ':' ∧ c ≠ '#' := by
  intro c hc
  simp only [payloadChars, List.mem_map] at hc
  obtain ⟨d, hd, rfl⟩ := hc
  have hlt := base58Digits_lt id d hd
  exact ⟨alphaValid d hlt, (alphaNotSep d hlt).1, (alphaNotSep d hlt).2⟩

theorem map_id_of (f : Nat → Nat) : ∀ (l : List Nat), (∀ d ∈ l, f d = d) → l.map f = l := by
  intro l
  induction l with
  | nil => intro _; rfl
  | cons a rest ih =>
    intro h
    simp [h a (by simp), ih (fun d hd => h d (by simp [hd]))]

theorem decode_payloadChars (id : Nat) : (payloadChars id).map charDigit = base58Digits id := by
  show ((base58Digits id).map digitChar).map charDigit = base58Digits id
  rw [List.map_map]
  exact map_id_of _ (base58Digits id)
    (fun d hd => alphaRound d (base58Digits_lt id d hd))

theorem parse_format_roundtrip (id : Nat) (hid : id < 2 ^ 256) :
    parseTransferId (formatTransferId id) = Except.ok id := by
  have hbodychars : ∀ c ∈ chunkPayload (payloadChars id), (isB58 c || c == ':') = true := by
    intro c hc
    rcases mem_chunkAux c (payloadChars id) 8 hc with rfl | hc'
    · simp
    · simp [(payloadChars_in_alphabet id c hc').1]
  have hnohash : '#' ∉ chunkPayload (payloadChars id) := by
    intro hmem
    rcases mem_chunkAux '#' (payloadChars id) 8 hmem with h | h
    · exact absurd h (by decide)
    · exact (payloadChars_in_alphabet id '#' h).2.2 rfl
  have hfilter : (chunkPayload (payloadChars id)).filter (fun c => c != ':') = payloadChars id :=
    filter_chunkAux (payloadChars id)
      (fun c hc => (payloadChars_in_alphabet id c hc).2.1) 8
  have hmod : id % 58 < 58 := Nat.mod_lt id (by norm_num)
  have hov : ¬ (2 ^ 256 ≤ id) := by omega
  show parseTransferId
      (hriChars ++ ':' :: (chunkPayload (payloadChars id) ++ '#' :: [digitChar (id % 58)]))
      = Except.ok id
  have hassoc :
      hriChars ++ ':' :: (chunkPayload (payloadChars id) ++ '#' :: [digitChar (id % 58)])
        = (hriChars ++ [':']) ++
          (chunkPayload (payloadChars id) ++ '#' :: [digitChar (id % 58)]) := by
    simp
  rw [hassoc]
  simp only [parseTransferId, dropLead_append, splitHash_append _ _ hnohash,
    find?_invalid_none _ hbodychars, hfilter, alphaValid _ hmod, decode_payloadChars,
    ofDigits_base58Digits, alphaRound _ hmod, hov, eq_self_iff_true, if_true, ite_true,
    ite_false, if_false]

/-- C7: formatting a valid transfer id and parsing it back yields the same id,
and malformed strings produce the distinct structured errors: a wrong checksum
gives a checksum mismatch, misplaced chunk separators give a separator error,
and a character outside the base-58 alphabet gives an invalid-character
error. -/
theorem transfer_id_text_roundtrip :
    (∀ id : Nat, id < 2 ^ 256 → parseTransferId (formatTransferId id) = Except.ok id) ∧
    parseTransferId ("transfer:#2".toList) = Except.error Baid58ParseError.checksumMismatch ∧
    parseTransferId ("transfer::#1".toList) = Except.error Baid58ParseError.malformedSeparators ∧
    parseTransferId ("transfer:0#1".toList) =
      Except.error (Baid58ParseError.invalidCharacter '0') :=
  ⟨parse_format_roundtrip, by rfl, by rfl, by rfl⟩

/-- Witness for C7: the concrete id 123456789 round-trips through its textual
form. -/
theorem transfer_id_text_roundtrip_witness :
    parseTransferId (formatTransferId 123456789) = Except.ok 123456789 :=
  transfer_id_text_roundtrip.1 123456789 (by decide)

end RgbStd
